import Mathlib

/-!
Verification of the Gemini-pulse chat client (TypeScript sources under `src/`).

This file gives a shallow embedding of the state-manipulating core of the
application and proves properties about it:

* the data model (`src/types.ts`): `Role`, `Attachment`, `Message`, `ChatSession`;
* the session-store mutators of `src/App.tsx` (`createNewSession`,
  `deleteSession`, `toggleKidMode`, the `setSessions` updates inside
  `handleSendMessage` and inside the live-session `onmessage` callback);
* the local-storage persistence effect of `src/App.tsx` lines 117-121;
* the live-audio playback scheduler of `src/App.tsx` lines 213-234;
* the streaming client `generateStreamingResponse` of
  `src/services/geminiService.ts`;
* the input component `ChatInput` (`src/components/ChatInput.tsx`);
* the presentational renderer `ChatMessage`;
* the base64 audio helpers `encode` / `decode` of `src/App.tsx` lines 11-28.

Browser / SDK primitives that the code merely calls (`crypto.randomUUID`,
`Date.now`, `localStorage`, `AudioContext`, the Gemini SDK) are modelled as
explicit parameters: fresh identifiers are drawn from a counter, clock values
and SDK responses are inputs, and the local-storage cell is threaded as state.
-/

/-- `Role` enum from `src/types.ts` (values `'user'`, `'model'`, `'system'`). -/
inductive Role where
  | user
  | model
  | system
deriving DecidableEq

/-- `Attachment` record from `src/types.ts`; `url` is optional there. -/
structure Attachment where
  mimeType : String
  data : String
  url : Option String := none
deriving DecidableEq

/-- The `generatedImage` payload of a `Message` (`src/types.ts`). -/
structure GeneratedImage where
  data : String
  mimeType : String
deriving DecidableEq

/-- `Message` record from `src/types.ts`.  Identifiers produced by
`crypto.randomUUID()` are modelled as natural numbers; the optional
`attachments` field is modelled as a list (absent = `[]`). -/
structure Message where
  id : Nat
  role : Role
  content : String
  timestamp : Nat
  attachments : List Attachment := []
  generatedImage : Option GeneratedImage := none
  isStreaming : Bool := false
deriving DecidableEq

/-- `ChatSession` record from `src/types.ts`. -/
structure ChatSession where
  id : Nat
  title : String
  messages : List Message
  updatedAt : Nat
  isKidMode : Bool := false
deriving DecidableEq

/-! ### Session-store mutators (`src/App.tsx`) -/

/-- The user message built at `src/App.tsx` line 260. -/
def userMessageOf (uid : Nat) (text : String) (atts : List Attachment) (now : Nat) : Message :=
  { id := uid, role := Role.user, content := text, timestamp := now, attachments := atts }

/-- The streaming placeholder model message built at `src/App.tsx` line 262. -/
def placeholderOf (mid : Nat) (now : Nat) : Message :=
  { id := mid, role := Role.model, content := "", timestamp := now, isStreaming := true }

/-- `text.slice(0, 30)` used for the session title at `src/App.tsx` line 267. -/
def sliceTitle (text : String) : String :=
  String.mk (text.toList.take 30)

/-- The `setSessions` update at `src/App.tsx` lines 264-269: append the user
message and the streaming placeholder to the session `sid`, retitling a fresh
conversation.  `newConvTitle` is `translations[language].newConversation`. -/
def appendSendMessages (l : List ChatSession) (sid uid mid : Nat) (text : String)
    (atts : List Attachment) (now : Nat) (newConvTitle : String) : List ChatSession :=
  l.map fun s => if s.id = sid then
    { s with
      messages := s.messages ++ [userMessageOf uid text atts now, placeholderOf mid now],
      title := if s.title = newConvTitle then sliceTitle text else s.title,
      updatedAt := now }
  else s

/-- The chunk-callback `setSessions` update at `src/App.tsx` lines 279-282:
set the content of message `mid` in session `sid` to the accumulated text. -/
def applyChunkUpdate (l : List ChatSession) (sid mid : Nat) (full : String) : List ChatSession :=
  l.map fun s => if s.id = sid then
    { s with messages := s.messages.map fun m =>
        if m.id = mid then { m with content := full } else m }
  else s

/-- The image-callback `setSessions` update at `src/App.tsx` lines 283-288:
store the generated image on message `mid` of session `sid`. -/
def applyImageUpdate (l : List ChatSession) (sid mid : Nat) (data mimeType : String) :
    List ChatSession :=
  l.map fun s => if s.id = sid then
    { s with messages := s.messages.map fun m =>
        if m.id = mid then { m with generatedImage := some ⟨data, mimeType⟩ } else m }
  else s

/-- The `setSessions` update at `src/App.tsx` lines 290-293: clear the
`isStreaming` flag of message `mid` in session `sid`. -/
def finishStreaming (l : List ChatSession) (sid mid : Nat) : List ChatSession :=
  l.map fun s => if s.id = sid then
    { s with messages := s.messages.map fun m =>
        if m.id = mid then { m with isStreaming := false } else m }
  else s

/-- The chunk loop of `handleSendMessage` (`src/App.tsx` lines 275-282): for
each delivered chunk, `fullResponse += chunk` followed by the content update.
`acc` is the current value of `fullResponse`. -/
def runChunks (sid mid : Nat) : List ChatSession → String → List String →
    List ChatSession × String
  | l, acc, [] => (l, acc)
  | l, acc, c :: cs => runChunks sid mid (applyChunkUpdate l sid mid (acc ++ c)) (acc ++ c) cs

/-- `createNewSession` (`src/App.tsx` lines 305-316): prepend a fresh session
holding a single welcome message. -/
def createNewSessionF (l : List ChatSession) (sid mid : Nat) (title welcome : String)
    (now : Nat) : List ChatSession :=
  { id := sid, title := title,
    messages := [{ id := mid, role := Role.model, content := welcome, timestamp := now }],
    updatedAt := now, isKidMode := false } :: l

/-- `deleteSession` (`src/App.tsx` lines 337-342): `sessions.filter(s => s.id !== id)`. -/
def deleteSessionF (l : List ChatSession) (sid : Nat) : List ChatSession :=
  l.filter fun s => s.id ≠ sid

/-- `toggleKidMode` (`src/App.tsx` lines 318-335): flip `isKidMode` of session
`sid`, replacing the greeting content when the session still has exactly one
message. -/
def toggleKidModeF (l : List ChatSession) (sid : Nat) (kidWelcome welcome : String) :
    List ChatSession :=
  l.map fun s => if s.id = sid then
    { s with
      isKidMode := !s.isKidMode,
      messages := match s.messages with
        | [m] => [{ m with content := if !s.isKidMode then kidWelcome else welcome }]
        | ms => ms }
  else s

/-- The `turnComplete` branch of the live `onmessage` callback
(`src/App.tsx` lines 236-244).  Returns the new session list together with the
new transcription accumulators.  The JS guard `if (input || output)` is string
truthiness, i.e. at least one accumulator non-empty; `input || '[Audio]'` and
`output || '[Audio Response]'` are likewise truthiness fallbacks. -/
def turnCompleteStep (l : List ChatSession) (sid uid mid : Nat) (input output : String)
    (now : Nat) : List ChatSession × String × String :=
  if input ≠ "" ∨ output ≠ "" then
    (l.map fun s => if s.id = sid then
      { s with
        messages := s.messages ++
          [{ id := uid, role := Role.user,
             content := if input ≠ "" then input else "[Audio]", timestamp := now },
           { id := mid, role := Role.model,
             content := if output ≠ "" then output else "[Audio Response]", timestamp := now }],
        updatedAt := now }
    else s, "", "")
  else (l, input, output)

/-! ### Live-audio playback scheduling (`src/App.tsx` lines 213-234, claim C4) -/

/-- The playback-scheduling state of the live session: the `nextStartTimeRef`
cursor and the set of scheduled (not yet stopped) `AudioBufferSourceNode`s,
identified by numbers.  Times are rationals (the browser reports real-valued
seconds; the code only ever adds and maximises them). -/
structure LiveAudioState where
  nextStartTime : Rat
  sources : List Nat
deriving DecidableEq

/-- Handling of one audio message (`src/App.tsx` lines 218-228):
`nextStartTime = max(nextStartTime, ctx.currentTime)`, start the new source at
`nextStartTime`, then advance the cursor by the buffer's duration and record
the source.  Returns the new state and the start time assigned. -/
def scheduleAudio (st : LiveAudioState) (currentTime duration : Rat) (srcId : Nat) :
    LiveAudioState × Rat :=
  let start := max st.nextStartTime currentTime
  ({ nextStartTime := start + duration, sources := srcId :: st.sources }, start)

/-- Handling of an `interrupted` message (`src/App.tsx` lines 230-234): stop
every scheduled source, clear the set, reset the cursor to 0.  Returns the new
state and the list of sources on which `stop()` was called. -/
def handleInterrupted (st : LiveAudioState) : LiveAudioState × List Nat :=
  ({ nextStartTime := 0, sources := [] }, st.sources)

/-- C4: live-audio buffers are scheduled sequentially without overlap — the
start time assigned to a buffer is at least the previous buffer's start time
plus the previous buffer's duration; the `nextStartTime` cursor is monotone
non-decreasing across audio messages (durations being non-negative); and an
`interrupted` message resets the cursor to 0, stopping exactly the scheduled
sources and clearing the set. -/
theorem audio_scheduling_sequential (st : LiveAudioState) (ct1 d1 ct2 d2 : Rat)
    (i1 i2 : Nat) (hd1 : 0 ≤ d1) :
    (scheduleAudio st ct1 d1 i1).2 + d1 ≤ (scheduleAudio (scheduleAudio st ct1 d1 i1).1 ct2 d2 i2).2
    ∧ st.nextStartTime ≤ (scheduleAudio st ct1 d1 i1).1.nextStartTime
    ∧ (handleInterrupted st).1.nextStartTime = 0
    ∧ (handleInterrupted st).1.sources = []
    ∧ (handleInterrupted st).2 = st.sources := by
  refine ⟨?_, ?_, rfl, rfl, rfl⟩
  · simp only [scheduleAudio]
    exact le_max_left _ _
  · simp only [scheduleAudio]
    calc st.nextStartTime ≤ max st.nextStartTime ct1 := le_max_left _ _
      _ ≤ max st.nextStartTime ct1 + d1 := le_add_of_nonneg_right hd1

/-- Witness for C4 at a concrete state and concrete times. -/
theorem audio_scheduling_sequential_witness :
    (scheduleAudio ⟨0, []⟩ 1 2 5).2 + 2 ≤ (scheduleAudio (scheduleAudio ⟨0, []⟩ 1 2 5).1 3 4 6).2
    ∧ (LiveAudioState.mk 0 []).nextStartTime ≤ (scheduleAudio ⟨0, []⟩ 1 2 5).1.nextStartTime
    ∧ (handleInterrupted ⟨0, []⟩).1.nextStartTime = 0
    ∧ (handleInterrupted ⟨0, []⟩).1.sources = []
    ∧ (handleInterrupted ⟨0, []⟩).2 = (LiveAudioState.mk 0 []).sources :=
  audio_scheduling_sequential ⟨0, []⟩ 1 2 3 4 5 6 (by norm_num)

/-! ### C5: turn completion flushes the transcription accumulators -/

/-- C5: when a live message reports turn completion, then if at least one
transcription accumulator is non-empty, every session other than the current
one is unchanged while the current one gets exactly two messages appended — a
user message whose content is the input transcription (or `[Audio]` if that is
empty) followed by a model message whose content is the output transcription
(or `[Audio Response]` if that is empty) — and both accumulators are reset to
empty; if both accumulators are empty the session list and the accumulators
are unchanged. -/
theorem turn_complete_flushes (l : List ChatSession) (sid uid mid : Nat)
    (input output : String) (now : Nat) :
    ((input = "" ∧ output = "") → turnCompleteStep l sid uid mid input output now = (l, input, output))
    ∧ (¬(input = "" ∧ output = "") →
        (turnCompleteStep l sid uid mid input output now).1
          = l.map (fun s => if s.id = sid then
              { s with
                messages := s.messages ++
                  [{ id := uid, role := Role.user,
                     content := if input = "" then "[Audio]" else input, timestamp := now },
                   { id := mid, role := Role.model,
                     content := if output = "" then "[Audio Response]" else output,
                     timestamp := now }],
                updatedAt := now } else s)
        ∧ (turnCompleteStep l sid uid mid input output now).2 = ("", "")) := by
  constructor
  · rintro ⟨hi, ho⟩
    simp [turnCompleteStep, hi, ho]
  · intro h
    have hcond : input ≠ "" ∨ output ≠ "" := by tauto
    rw [turnCompleteStep, if_pos hcond]
    refine ⟨?_, rfl⟩
    apply List.map_congr_left
    intro s _
    by_cases hs : s.id = sid
    · simp only [if_pos hs]
      by_cases hi : input = "" <;> by_cases ho : output = "" <;> simp [hi, ho]
    · simp only [if_neg hs]

/-- Witness for C5: a concrete turn completion with a non-empty input
transcription resets both accumulators. -/
theorem turn_complete_flushes_witness :
    (turnCompleteStep [⟨1, "t", [], 0, false⟩] 1 8 9 "hi" "" 5).2 = ("", "") :=
  ((turn_complete_flushes [⟨1, "t", [], 0, false⟩] 1 8 9 "hi" "" 5).2 (by decide)).2

/-! ### C2: local-storage persistence of the session list (`src/App.tsx` 117-121) -/

/-- Model of `JSON.stringify` on a string value (escaping is irrelevant for
the inputs considered here). -/
def jsonStr (s : String) : String := "\"" ++ s ++ "\""

/-- Serialization of a `Role` enum value. -/
def serializeRole : Role → String
  | Role.user => jsonStr "user"
  | Role.model => jsonStr "model"
  | Role.system => jsonStr "system"

/-- Model of `JSON.stringify` on an `Attachment` (an absent optional field is
omitted, as `JSON.stringify` omits `undefined`). -/
def serializeAttachment (a : Attachment) : String :=
  "\x7b\"mimeType\":" ++ jsonStr a.mimeType ++ ",\"data\":" ++ jsonStr a.data ++
    (match a.url with
     | some u => ",\"url\":" ++ jsonStr u
     | none => "") ++ "\x7d"

/-- Model of `JSON.stringify` on a `Message`. -/
def serializeMessage (m : Message) : String :=
  "\x7b\"id\":" ++ toString m.id ++ ",\"role\":" ++ serializeRole m.role ++
    ",\"content\":" ++ jsonStr m.content ++ ",\"timestamp\":" ++ toString m.timestamp ++
    ",\"attachments\":[" ++ String.intercalate "," (m.attachments.map serializeAttachment) ++
    "]" ++
    (match m.generatedImage with
     | some g => ",\"generatedImage\":\x7b\"data\":" ++ jsonStr g.data ++
         ",\"mimeType\":" ++ jsonStr g.mimeType ++ "\x7d"
     | none => "") ++
    ",\"isStreaming\":" ++ (if m.isStreaming then "true" else "false") ++ "\x7d"

/-- Model of `JSON.stringify` on a `ChatSession`. -/
def serializeSession (s : ChatSession) : String :=
  "\x7b\"id\":" ++ toString s.id ++ ",\"title\":" ++ jsonStr s.title ++
    ",\"messages\":[" ++ String.intercalate "," (s.messages.map serializeMessage) ++
    "],\"updatedAt\":" ++ toString s.updatedAt ++
    ",\"isKidMode\":" ++ (if s.isKidMode then "true" else "false") ++ "\x7d"

/-- Model of `JSON.stringify(sessions)` as used at `src/App.tsx` line 119. -/
def serializeSessions (l : List ChatSession) : String :=
  "[" ++ String.intercalate "," (l.map serializeSession) ++ "]"

/-- The persistence effect of `src/App.tsx` lines 117-121: whenever the
session list changes, write its serialization to the `gemini_sessions` key —
but only when the list is non-empty.  `store` is the current value of the key
(`none` when unset). -/
def persistEffect (l : List ChatSession) (store : Option String) : Option String :=
  if l.length > 0 then some (serializeSessions l) else store

/-- The session-store mutations named by claim C2, parameterised by the fresh
identifiers, timestamps and translated strings the code draws from its
environment. -/
inductive SessionMutation where
  | create (sid mid : Nat) (title welcome : String) (now : Nat)
  | delete (sid : Nat)
  | toggleKid (sid : Nat) (kidWelcome welcome : String)
  | appendMsgs (sid uid mid : Nat) (text : String) (atts : List Attachment) (now : Nat)
      (newConvTitle : String)
  | updateMsg (sid mid : Nat) (content : String)

/-- Apply one mutation to the session list (dispatching to the corresponding
mutator of `src/App.tsx`). -/
def applyMutation (l : List ChatSession) : SessionMutation → List ChatSession
  | SessionMutation.create sid mid title welcome now => createNewSessionF l sid mid title welcome now
  | SessionMutation.delete sid => deleteSessionF l sid
  | SessionMutation.toggleKid sid kw w => toggleKidModeF l sid kw w
  | SessionMutation.appendMsgs sid uid mid text atts now t0 =>
      appendSendMessages l sid uid mid text atts now t0
  | SessionMutation.updateMsg sid mid content => applyChunkUpdate l sid mid content

/-- A mutation followed by the persistence effect that reacts to it. -/
def mutateAndPersist (l : List ChatSession) (store : Option String) (mu : SessionMutation) :
    List ChatSession × Option String :=
  let l' := applyMutation l mu
  (l', persistEffect l' store)

/-- A concrete session used in witnesses and counterexamples. -/
def demoSession : ChatSession :=
  { id := 1, title := "Trip ideas",
    messages := [{ id := 2, role := Role.model, content := "Hello!", timestamp := 10 }],
    updatedAt := 10 }

/-- Counterexample to C2 as stated: deleting the only session leaves the
stored value equal to the serialization of the old, non-empty list rather
than the serialization of the (now empty) current list — the persistence
effect is guarded by `sessions.length > 0`. -/
theorem persistence_skips_empty_list :
    (mutateAndPersist [demoSession] (some (serializeSessions [demoSession]))
        (SessionMutation.delete 1)).1 = []
    ∧ (mutateAndPersist [demoSession] (some (serializeSessions [demoSession]))
        (SessionMutation.delete 1)).2
      ≠ some (serializeSessions
          (mutateAndPersist [demoSession] (some (serializeSessions [demoSession]))
            (SessionMutation.delete 1)).1) := by
  constructor
  · rfl
  · intro h
    simp only [mutateAndPersist, applyMutation, persistEffect] at h
    revert h
    decide

/-- C2 (amended): after every mutation of the session store that leaves the
session list non-empty, the stored value under the sessions key equals the
serialization of the current session list; a mutation that empties the list
leaves the previously stored value unchanged. -/
theorem persist_after_mutation (l : List ChatSession) (store : Option String)
    (mu : SessionMutation) :
    (applyMutation l mu ≠ [] →
      (mutateAndPersist l store mu).2 = some (serializeSessions (applyMutation l mu)))
    ∧ (applyMutation l mu = [] → (mutateAndPersist l store mu).2 = store) := by
  constructor
  · intro h
    have hlen : 0 < (applyMutation l mu).length := List.length_pos.mpr h
    simp [mutateAndPersist, persistEffect, hlen]
  · intro h
    simp [mutateAndPersist, persistEffect, h]

/-- Witness for C2 (amended): creating a session in an empty store persists
the new singleton list. -/
theorem persist_after_mutation_witness :
    (mutateAndPersist [] none (SessionMutation.create 0 1 "New chat" "Hello" 3)).2
      = some (serializeSessions
          (applyMutation [] (SessionMutation.create 0 1 "New chat" "Hello" 3))) :=
  (persist_after_mutation [] none (SessionMutation.create 0 1 "New chat" "Hello" 3)).1
    (by decide)

/-! ### C3: uniqueness of identifiers is an invariant of the session store

`crypto.randomUUID()` (which the browser guarantees returns a fresh
identifier) is modelled by a counter `nextId`: every call hands out the next
number.  The store operations are the `setSessions` mutations of
`src/App.tsx`. -/

/-- The session store: the `sessions` state plus the supply of fresh
identifiers. -/
structure Store where
  sessions : List ChatSession
  nextId : Nat

/-- One user-visible store operation of `src/App.tsx`, carrying the data the
code reads from its environment (texts, timestamps, target ids). -/
inductive StoreOp where
  | create (title welcome : String) (now : Nat)
  | delete (sid : Nat)
  | toggleKid (sid : Nat) (kidWelcome welcome : String)
  | send (sid : Nat) (text : String) (atts : List Attachment) (now : Nat) (newConvTitle : String)
  | chunk (sid mid : Nat) (full : String)
  | finish (sid mid : Nat)
  | turnComplete (sid : Nat) (input output : String) (now : Nat)

/-- Apply one store operation, drawing fresh identifiers from the counter
exactly where the code calls `crypto.randomUUID()`. -/
def applyStoreOp (st : Store) : StoreOp → Store
  | StoreOp.create title welcome now =>
      ⟨createNewSessionF st.sessions st.nextId (st.nextId + 1) title welcome now, st.nextId + 2⟩
  | StoreOp.delete sid => ⟨deleteSessionF st.sessions sid, st.nextId⟩
  | StoreOp.toggleKid sid kw w => ⟨toggleKidModeF st.sessions sid kw w, st.nextId⟩
  | StoreOp.send sid text atts now t0 =>
      ⟨appendSendMessages st.sessions sid st.nextId (st.nextId + 1) text atts now t0,
       st.nextId + 2⟩
  | StoreOp.chunk sid mid full => ⟨applyChunkUpdate st.sessions sid mid full, st.nextId⟩
  | StoreOp.finish sid mid => ⟨finishStreaming st.sessions sid mid, st.nextId⟩
  | StoreOp.turnComplete sid input output now =>
      ⟨(turnCompleteStep st.sessions sid st.nextId (st.nextId + 1) input output now).1,
       st.nextId + 2⟩

/-- Run a sequence of store operations from the empty initial store. -/
def runStoreOps (ops : List StoreOp) : Store :=
  ops.foldl applyStoreOp ⟨[], 0⟩

/-- All session ids are pairwise distinct and, within each session, all
message ids are pairwise distinct. -/
def UniqueIds (l : List ChatSession) : Prop :=
  (l.map fun s => s.id).Nodup ∧ ∀ s ∈ l, (s.messages.map fun m => m.id).Nodup

/-- Every identifier in the store is below the fresh-id counter. -/
def IdsBelow (l : List ChatSession) (n : Nat) : Prop :=
  ∀ s ∈ l, s.id < n ∧ ∀ m ∈ s.messages, m.id < n

/-- The inductive invariant: uniqueness plus freshness of the counter. -/
def StoreInv (st : Store) : Prop :=
  UniqueIds st.sessions ∧ IdsBelow st.sessions st.nextId

theorem nodup_append_two (ids : List Nat) (n : Nat) (hnd : ids.Nodup)
    (hlt : ∀ i ∈ ids, i < n) : (ids ++ [n, n + 1]).Nodup := by
  refine List.Nodup.append hnd ?_ ?_
  · refine List.nodup_cons.mpr ⟨?_, List.nodup_singleton _⟩
    simp only [List.mem_singleton]
    omega
  · intro a ha hb
    have := hlt a ha
    simp only [List.mem_cons, List.mem_singleton, List.not_mem_nil, or_false] at hb
    omega

theorem nodup_msgs_appendTwo (msgs : List Message) (m1 m2 : Message) (n : Nat)
    (h1 : m1.id = n) (h2 : m2.id = n + 1)
    (hnodup : (msgs.map fun m => m.id).Nodup) (hlt : ∀ m ∈ msgs, m.id < n) :
    ((msgs ++ [m1, m2]).map fun m => m.id).Nodup ∧ ∀ m ∈ msgs ++ [m1, m2], m.id < n + 2 := by
  constructor
  · rw [List.map_append]
    have hpair : ([m1, m2].map fun m => m.id) = [n, n + 1] := by simp [h1, h2]
    rw [hpair]
    refine nodup_append_two _ n hnodup ?_
    intro i hi
    obtain ⟨m, hm, rfl⟩ := List.mem_map.mp hi
    exact hlt m hm
  · intro m hm
    rcases List.mem_append.mp hm with hm | hm
    · have := hlt m hm
      omega
    · simp only [List.mem_cons, List.mem_singleton, List.not_mem_nil, or_false] at hm
      rcases hm with rfl | rfl
      · omega
      · omega

/-- Preservation of the invariant by a uniform per-session map that keeps
session ids. -/
theorem storeInv_map (l : List ChatSession) (n n' : Nat) (f : ChatSession → ChatSession)
    (hle : n ≤ n')
    (hid : ∀ s, (f s).id = s.id)
    (hmsgs : ∀ s ∈ l, (s.messages.map fun m => m.id).Nodup → (∀ m ∈ s.messages, m.id < n) →
      ((f s).messages.map fun m => m.id).Nodup ∧ ∀ m ∈ (f s).messages, m.id < n')
    (h : UniqueIds l ∧ IdsBelow l n) :
    UniqueIds (l.map f) ∧ IdsBelow (l.map f) n' := by
  obtain ⟨⟨hnd, hmnd⟩, hbelow⟩ := h
  have hids : ((l.map f).map fun s => s.id) = l.map fun s => s.id := by
    rw [List.map_map]
    refine List.map_congr_left ?_
    intro s _
    simp only [Function.comp_apply]
    exact hid s
  refine ⟨⟨?_, ?_⟩, ?_⟩
  · rw [hids]
    exact hnd
  · intro s' hs'
    obtain ⟨s, hs, rfl⟩ := List.mem_map.mp hs'
    exact (hmsgs s hs (hmnd s hs) (hbelow s hs).2).1
  · intro s' hs'
    obtain ⟨s, hs, rfl⟩ := List.mem_map.mp hs'
    refine ⟨?_, (hmsgs s hs (hmnd s hs) (hbelow s hs).2).2⟩
    rw [hid s]
    exact lt_of_lt_of_le (hbelow s hs).1 hle

/-- Preservation of the invariant by a per-message update that keeps message
ids (the chunk, image and stream-finish updates). -/
theorem storeInv_msgUpdate (l : List ChatSession) (n sid mid : Nat) (g : Message → Message)
    (hg : ∀ m, (g m).id = m.id)
    (h : UniqueIds l ∧ IdsBelow l n) :
    UniqueIds (l.map fun s => if s.id = sid then
        { s with messages := s.messages.map fun m => if m.id = mid then g m else m } else s)
      ∧ IdsBelow (l.map fun s => if s.id = sid then
        { s with messages := s.messages.map fun m => if m.id = mid then g m else m } else s) n := by
  refine storeInv_map l n n _ le_rfl ?_ ?_ h
  · intro s
    by_cases hs : s.id = sid
    · simp only [if_pos hs]
    · simp only [if_neg hs]
  · intro s _ hnodup hlt
    by_cases hs : s.id = sid
    · simp only [if_pos hs]
      have hids : ((s.messages.map fun m => if m.id = mid then g m else m).map fun m => m.id)
          = s.messages.map fun m => m.id := by
        rw [List.map_map]
        refine List.map_congr_left ?_
        intro m _
        simp only [Function.comp_apply]
        by_cases hm : m.id = mid
        · simp [hm, hg]
        · simp [hm]
      constructor
      · rw [hids]
        exact hnodup
      · intro m' hm'
        obtain ⟨m, hm, rfl⟩ := List.mem_map.mp hm'
        by_cases hmm : m.id = mid
        · simp only [if_pos hmm, hg]
          exact hlt m hm
        · simp only [if_neg hmm]
          exact hlt m hm
    · simp only [if_neg hs]
      exact ⟨hnodup, hlt⟩


/-- Preservation of the invariant by `createNewSession`. -/
theorem storeInv_create (l : List ChatSession) (n : Nat) (title welcome : String) (now : Nat)
    (h : UniqueIds l ∧ IdsBelow l n) :
    UniqueIds (createNewSessionF l n (n + 1) title welcome now)
      ∧ IdsBelow (createNewSessionF l n (n + 1) title welcome now) (n + 2) := by
  obtain ⟨⟨hnd, hmnd⟩, hbelow⟩ := h
  refine ⟨⟨?_, ?_⟩, ?_⟩
  · simp only [createNewSessionF, List.map_cons]
    refine List.nodup_cons.mpr ⟨?_, hnd⟩
    intro hmem
    obtain ⟨s, hs, hsid⟩ := List.mem_map.mp hmem
    have := (hbelow s hs).1
    have : s.id = n := hsid
    omega
  · intro s hs
    simp only [createNewSessionF, List.mem_cons] at hs
    rcases hs with rfl | hs
    · exact List.nodup_singleton _
    · exact hmnd s hs
  · intro s hs
    simp only [createNewSessionF, List.mem_cons] at hs
    rcases hs with rfl | hs
    · refine ⟨show n < n + 2 by omega, ?_⟩
      intro m hm
      simp only [List.mem_singleton] at hm
      subst hm
      show n + 1 < n + 2
      omega
    · obtain ⟨h1, h2⟩ := hbelow s hs
      exact ⟨by omega, fun m hm => by have := h2 m hm; omega⟩

/-- Preservation of the invariant by `deleteSession`. -/
theorem storeInv_delete (l : List ChatSession) (n sid : Nat)
    (h : UniqueIds l ∧ IdsBelow l n) :
    UniqueIds (deleteSessionF l sid) ∧ IdsBelow (deleteSessionF l sid) n := by
  obtain ⟨⟨hnd, hmnd⟩, hbelow⟩ := h
  refine ⟨⟨?_, ?_⟩, ?_⟩
  · exact List.Nodup.sublist (List.Sublist.map _ (List.filter_sublist l)) hnd
  · intro s hs
    exact hmnd s (List.mem_of_mem_filter hs)
  · intro s hs
    exact hbelow s (List.mem_of_mem_filter hs)

/-- Preservation of the invariant by `toggleKidMode`. -/
theorem storeInv_toggleKid (l : List ChatSession) (n sid : Nat) (kw w : String)
    (h : UniqueIds l ∧ IdsBelow l n) :
    UniqueIds (toggleKidModeF l sid kw w) ∧ IdsBelow (toggleKidModeF l sid kw w) n := by
  refine storeInv_map l n n _ le_rfl ?_ ?_ h
  · intro s
    by_cases hs : s.id = sid
    · simp only [if_pos hs]
    · simp only [if_neg hs]
  · intro s _ hnodup hlt
    by_cases hs : s.id = sid
    · simp only [if_pos hs]
      obtain ⟨i, ti, msgs, u, k⟩ := s
      rcases msgs with _ | ⟨m, _ | ⟨m2, rest⟩⟩
      · exact ⟨hnodup, hlt⟩
      · refine ⟨List.nodup_singleton _, ?_⟩
        intro m' hm'
        simp only [List.mem_singleton] at hm'
        subst hm'
        exact hlt m (by simp)
      · exact ⟨hnodup, hlt⟩
    · simp only [if_neg hs]
      exact ⟨hnodup, hlt⟩

/-- Preservation of the invariant by the send-message append. -/
theorem storeInv_send (l : List ChatSession) (n sid : Nat) (text : String)
    (atts : List Attachment) (now : Nat) (t0 : String)
    (h : UniqueIds l ∧ IdsBelow l n) :
    UniqueIds (appendSendMessages l sid n (n + 1) text atts now t0)
      ∧ IdsBelow (appendSendMessages l sid n (n + 1) text atts now t0) (n + 2) := by
  refine storeInv_map l n (n + 2) _ (by omega) ?_ ?_ h
  · intro s
    by_cases hs : s.id = sid
    · simp only [if_pos hs]
    · simp only [if_neg hs]
  · intro s _ hnodup hlt
    by_cases hs : s.id = sid
    · simp only [if_pos hs]
      exact nodup_msgs_appendTwo s.messages _ _ n rfl rfl hnodup hlt
    · simp only [if_neg hs]
      exact ⟨hnodup, fun m hm => by have := hlt m hm; omega⟩

/-- Preservation of the invariant by the live turn-completion append. -/
theorem storeInv_turnComplete (l : List ChatSession) (n sid : Nat)
    (input output : String) (now : Nat)
    (h : UniqueIds l ∧ IdsBelow l n) :
    UniqueIds (turnCompleteStep l sid n (n + 1) input output now).1
      ∧ IdsBelow (turnCompleteStep l sid n (n + 1) input output now).1 (n + 2) := by
  by_cases hcond : input ≠ "" ∨ output ≠ ""
  · rw [turnCompleteStep, if_pos hcond]
    refine storeInv_map l n (n + 2) _ (by omega) ?_ ?_ h
    · intro s
      by_cases hs : s.id = sid
      · simp only [if_pos hs]
      · simp only [if_neg hs]
    · intro s _ hnodup hlt
      by_cases hs : s.id = sid
      · simp only [if_pos hs]
        exact nodup_msgs_appendTwo s.messages _ _ n rfl rfl hnodup hlt
      · simp only [if_neg hs]
        exact ⟨hnodup, fun m hm => by have := hlt m hm; omega⟩
  · rw [turnCompleteStep, if_neg hcond]
    obtain ⟨hu, hb⟩ := h
    refine ⟨hu, ?_⟩
    intro s hs
    obtain ⟨h1, h2⟩ := hb s hs
    exact ⟨by omega, fun m hm => by have := h2 m hm; omega⟩

/-- The invariant is preserved by every store operation. -/
theorem storeInv_step (st : Store) (op : StoreOp) (h : StoreInv st) :
    StoreInv (applyStoreOp st op) := by
  obtain ⟨hu, hb⟩ := h
  cases op with
  | create title welcome now =>
      exact storeInv_create st.sessions st.nextId title welcome now ⟨hu, hb⟩
  | delete sid =>
      exact storeInv_delete st.sessions st.nextId sid ⟨hu, hb⟩
  | toggleKid sid kw w =>
      exact storeInv_toggleKid st.sessions st.nextId sid kw w ⟨hu, hb⟩
  | send sid text atts now t0 =>
      exact storeInv_send st.sessions st.nextId sid text atts now t0 ⟨hu, hb⟩
  | chunk sid mid full =>
      exact storeInv_msgUpdate st.sessions st.nextId sid mid
        (fun m => { m with content := full }) (fun m => rfl) ⟨hu, hb⟩
  | finish sid mid =>
      exact storeInv_msgUpdate st.sessions st.nextId sid mid
        (fun m => { m with isStreaming := false }) (fun m => rfl) ⟨hu, hb⟩
  | turnComplete sid input output now =>
      exact storeInv_turnComplete st.sessions st.nextId sid input output now ⟨hu, hb⟩

/-- C3: in every state of the session store reachable by its operations
(create session, delete session, send message, live turn completion, kid-mode
toggle, chunk/stream-finish updates), all session ids are pairwise distinct
and, within each session, all message ids are pairwise distinct. -/
theorem store_reachable_ids_unique (ops : List StoreOp) :
    UniqueIds (runStoreOps ops).sessions := by
  have key : ∀ (ops : List StoreOp) (st : Store), StoreInv st →
      StoreInv (ops.foldl applyStoreOp st) := by
    intro ops
    induction ops with
    | nil => intro st h; exact h
    | cons op rest ih =>
        intro st h
        exact ih _ (storeInv_step st op h)
  have hinit : StoreInv ⟨[], 0⟩ := by
    refine ⟨⟨List.nodup_nil, ?_⟩, ?_⟩
    · intro s hs
      exact absurd hs (List.not_mem_nil s)
    · intro s hs
      exact absurd hs (List.not_mem_nil s)
  exact (key ops ⟨[], 0⟩ hinit).1

/-! ### C1 / C10: chunk accumulation in `handleSendMessage` (`src/App.tsx` 257-303) -/

/-- Concatenation of a list of chunk strings, in arrival order. -/
def concatStr (l : List String) : String := l.foldr (fun a b => a ++ b) ""

/-- The placeholder model message with explicit content, streaming flag and
generated image (the fields the updates of `handleSendMessage` touch). -/
def phMsg (mid now : Nat) (content : String) (streaming : Bool)
    (img : Option GeneratedImage) : Message :=
  { id := mid, role := Role.model, content := content, timestamp := now,
    isStreaming := streaming, generatedImage := img }

/-- The session list after the send-append of `handleSendMessage`, with the
placeholder in an arbitrary updated state `ph`. -/
def expectedAfterSend (l : List ChatSession) (sid uid : Nat) (text : String)
    (atts : List Attachment) (now : Nat) (newConvTitle : String) (ph : Message) :
    List ChatSession :=
  l.map fun s => if s.id = sid then
    { s with
      messages := s.messages ++ [userMessageOf uid text atts now, ph],
      title := if s.title = newConvTitle then sliceTitle text else s.title,
      updatedAt := now }
  else s

theorem appendSendMessages_eq_expected (l : List ChatSession) (sid uid mid : Nat)
    (text : String) (atts : List Attachment) (now : Nat) (t0 : String) :
    appendSendMessages l sid uid mid text atts now t0
      = expectedAfterSend l sid uid text atts now t0 (phMsg mid now "" true none) := rfl

/-- A message-targeted update leaves an `expectedAfterSend` state in
`expectedAfterSend` form, updating only the placeholder, provided `mid` is
fresh: it occurs neither in the original messages nor as the user message's
id. -/
theorem update_expectedAfterSend (l : List ChatSession) (sid uid mid : Nat)
    (text : String) (atts : List Attachment) (now : Nat) (t0 : String)
    (ph : Message) (g : Message → Message)
    (hfresh : ∀ s ∈ l, ∀ m ∈ s.messages, m.id ≠ mid) (huid : uid ≠ mid)
    (hph : ph.id = mid) :
    ((expectedAfterSend l sid uid text atts now t0 ph).map fun s => if s.id = sid then
        { s with messages := s.messages.map fun m => if m.id = mid then g m else m } else s)
      = expectedAfterSend l sid uid text atts now t0 (g ph) := by
  simp only [expectedAfterSend, List.map_map]
  refine List.map_congr_left ?_
  intro s hs
  simp only [Function.comp_apply]
  by_cases hsid : s.id = sid
  · simp only [if_pos hsid]
    congr 1
    rw [List.map_append]
    congr 1
    · refine List.map_congr_left ?_ |>.trans (List.map_id _)
      intro m hm
      simp only [if_neg (hfresh s hs m hm)]
      rfl
    · simp only [List.map_cons, List.map_nil]
      rw [if_neg (show ¬(userMessageOf uid text atts now).id = mid from huid),
        if_pos (show ph.id = mid from hph)]
  · simp only [if_neg hsid]

/-- Running the chunk callbacks on an `expectedAfterSend` state accumulates
the concatenation of the chunks into the placeholder's content and into
`fullResponse`. -/
theorem runChunks_expected (l : List ChatSession) (sid uid mid : Nat) (text : String)
    (atts : List Attachment) (now : Nat) (t0 : String)
    (hfresh : ∀ s ∈ l, ∀ m ∈ s.messages, m.id ≠ mid) (huid : uid ≠ mid)
    (cs : List String) :
    ∀ acc : String,
      runChunks sid mid
          (expectedAfterSend l sid uid text atts now t0 (phMsg mid now acc true none)) acc cs
        = (expectedAfterSend l sid uid text atts now t0
            (phMsg mid now (acc ++ concatStr cs) true none), acc ++ concatStr cs) := by
  induction cs with
  | nil =>
      intro acc
      simp only [runChunks, concatStr, List.foldr_nil, String.append_empty]
  | cons c cs ih =>
      intro acc
      have hupd : applyChunkUpdate
          (expectedAfterSend l sid uid text atts now t0 (phMsg mid now acc true none))
          sid mid (acc ++ c)
          = expectedAfterSend l sid uid text atts now t0 (phMsg mid now (acc ++ c) true none) :=
        update_expectedAfterSend l sid uid mid text atts now t0 (phMsg mid now acc true none)
          (fun m => { m with content := acc ++ c }) hfresh huid rfl
      show runChunks sid mid (applyChunkUpdate _ sid mid (acc ++ c)) (acc ++ c) cs = _
      rw [hupd, ih (acc ++ c)]
      have : (acc ++ c) ++ concatStr cs = acc ++ concatStr (c :: cs) := by
        show (acc ++ c) ++ concatStr cs = acc ++ (c ++ concatStr cs)
        exact String.append_assoc acc c (concatStr cs)
      rw [this]

/-- C1: during a send with no attachments, after the n-th chunk callback the
placeholder model message of the target session has content equal to the
concatenation of the first n chunks in arrival order (every other session,
and every other message, is untouched), and when the stream ends its
`isStreaming` flag is set to `false` with content equal to the concatenation
of all chunks.  `mid` and `uid` are the fresh identifiers of the placeholder
and the user message. -/
theorem streaming_chunks_accumulate (l : List ChatSession) (sid uid mid : Nat)
    (text : String) (atts : List Attachment) (now : Nat) (t0 : String)
    (chunks : List String)
    (hfresh : ∀ s ∈ l, ∀ m ∈ s.messages, m.id ≠ mid) (huid : uid ≠ mid) :
    (∀ n : Nat,
      runChunks sid mid (appendSendMessages l sid uid mid text atts now t0) "" (chunks.take n)
        = (expectedAfterSend l sid uid text atts now t0
            (phMsg mid now (concatStr (chunks.take n)) true none),
           concatStr (chunks.take n)))
    ∧ finishStreaming
        (runChunks sid mid (appendSendMessages l sid uid mid text atts now t0) "" chunks).1
        sid mid
      = expectedAfterSend l sid uid text atts now t0
          (phMsg mid now (concatStr chunks) false none) := by
  have hrun : ∀ cs : List String,
      runChunks sid mid (appendSendMessages l sid uid mid text atts now t0) "" cs
        = (expectedAfterSend l sid uid text atts now t0
            (phMsg mid now (concatStr cs) true none), concatStr cs) := by
    intro cs
    rw [appendSendMessages_eq_expected]
    have := runChunks_expected l sid uid mid text atts now t0 hfresh huid cs ""
    rw [this, String.empty_append]
  constructor
  · intro n
    exact hrun (chunks.take n)
  · rw [hrun chunks]
    exact update_expectedAfterSend l sid uid mid text atts now t0
      (phMsg mid now (concatStr chunks) true none)
      (fun m => { m with isStreaming := false }) hfresh huid rfl

/-- Witness for C1 at a concrete session list and chunk sequence. -/
theorem streaming_chunks_accumulate_witness :
    runChunks 1 3 (appendSendMessages [demoSession] 1 2 3 "hi" [] 7 "New chat") ""
        (["ab", "cd"].take 2)
      = (expectedAfterSend [demoSession] 1 2 "hi" [] 7 "New chat"
          (phMsg 3 7 (concatStr (["ab", "cd"].take 2)) true none),
         concatStr (["ab", "cd"].take 2)) :=
  (streaming_chunks_accumulate [demoSession] 1 2 3 "hi" [] 7 "New chat" ["ab", "cd"]
    (by decide) (by decide)).1 2

/-- The success/failure outcome of the awaited streaming request. -/
inductive StreamOutcome where
  | ok
  | errored
deriving DecidableEq

/-- The whole of `handleSendMessage` for a text-only send (`src/App.tsx`
lines 257-303): append user message and placeholder, set the loading flag,
run the chunk callbacks, and then — only when the request did not throw —
clear the placeholder's `isStreaming` flag.  The `catch` block merely logs;
the `finally` block clears the loading flag in both outcomes.  Returns the
session list and the final loading flag. -/
def handleSendMessage (l : List ChatSession) (sid uid mid : Nat) (text : String)
    (atts : List Attachment) (now : Nat) (newConvTitle : String)
    (chunks : List String) (outcome : StreamOutcome) : List ChatSession × Bool :=
  let base := appendSendMessages l sid uid mid text atts now newConvTitle
  let r := runChunks sid mid base "" chunks
  match outcome with
  | StreamOutcome.ok => (finishStreaming r.1 sid mid, false)
  | StreamOutcome.errored => (r.1, false)

/-- C10: if the streaming request throws after delivering some chunks, the
state changes are not rolled back — the user message and the placeholder
remain in the target session, the placeholder keeps `isStreaming = true` and
the partial content accumulated before the failure, and only the loading flag
is cleared. -/
theorem error_keeps_partial_state (l : List ChatSession) (sid uid mid : Nat)
    (text : String) (atts : List Attachment) (now : Nat) (t0 : String)
    (chunks : List String)
    (hfresh : ∀ s ∈ l, ∀ m ∈ s.messages, m.id ≠ mid) (huid : uid ≠ mid) :
    handleSendMessage l sid uid mid text atts now t0 chunks StreamOutcome.errored
      = (expectedAfterSend l sid uid text atts now t0
          (phMsg mid now (concatStr chunks) true none), false) := by
  show ((runChunks sid mid (appendSendMessages l sid uid mid text atts now t0) "" chunks).1,
      false) = _
  rw [appendSendMessages_eq_expected]
  have := runChunks_expected l sid uid mid text atts now t0 hfresh huid chunks ""
  rw [this, String.empty_append]

/-- Witness for C10 at a concrete session list and chunk sequence. -/
theorem error_keeps_partial_state_witness :
    handleSendMessage [demoSession] 1 2 3 "hi" [] 7 "New chat" ["ab", "cd"]
        StreamOutcome.errored
      = (expectedAfterSend [demoSession] 1 2 "hi" [] 7 "New chat"
          (phMsg 3 7 (concatStr ["ab", "cd"]) true none), false) :=
  error_keeps_partial_state [demoSession] 1 2 3 "hi" [] 7 "New chat" ["ab", "cd"]
    (by decide) (by decide)

/-! ### C6: SDK path selection in `generateStreamingResponse`
(`src/services/geminiService.ts`) -/

/-- One part of an SDK response candidate: optional text and optional inline
data (`data`, `mimeType`). -/
structure RespPart where
  text : Option String := none
  inlineData : Option GeneratedImage := none
deriving DecidableEq

/-- Which SDK entry point the client invokes, with the model name passed. -/
inductive SdkCall where
  | generateContent (model : String)
  | generateContentStream (model : String)
deriving DecidableEq

/-- A callback invocation made by the client: `onChunk` or `onImageGenerated`. -/
inductive GenEvent where
  | chunk (text : String)
  | image (data mimeType : String)
deriving DecidableEq

/-- `messages.some(m => m.attachments && m.attachments.length > 0)`
(`src/services/geminiService.ts` line 15). -/
def hasImages (messages : List Message) : Bool :=
  messages.any fun m => !m.attachments.isEmpty

/-- The callback invocations of the non-streaming branch
(`src/services/geminiService.ts` lines 55-64): for each response part, the JS
truthiness guard `if (part.text)` forwards the text exactly when it is a
non-empty string, and `if (part.inlineData && onImageGenerated)` forwards
every inline-data payload (the callback is always passed by `App`). -/
def forwardImageParts : List RespPart → List GenEvent
  | [] => []
  | p :: ps =>
      (match p.text with
       | some t => if t = "" then [] else [GenEvent.chunk t]
       | none => []) ++
      (match p.inlineData with
       | some g => [GenEvent.image g.data g.mimeType]
       | none => []) ++ forwardImageParts ps

/-- The chunks actually delivered by the streaming branch
(`src/services/geminiService.ts` lines 76-84): each stream item's `.text` is
forwarded (and accumulated into `fullText`) exactly when truthy, i.e. present
and non-empty. -/
def deliveredChunks (stream : List (Option String)) : List String :=
  stream.filterMap fun t => match t with
    | some s => if s = "" then none else some s
    | none => none

/-- `generateStreamingResponse` (`src/services/geminiService.ts` lines 5-92),
modelled over the SDK response it would receive: `imageParts` are the parts
of `result.candidates[0].content.parts` in the non-streaming branch, `stream`
the `.text` fields of the streamed chunks in the streaming branch.  Returns
the SDK call made, the callback invocations in order, and the returned
string. -/
def generateStreamingResponseModel (messages : List Message) (imageParts : List RespPart)
    (stream : List (Option String)) : SdkCall × List GenEvent × String :=
  if hasImages messages then
    (SdkCall.generateContent "gemini-2.5-flash-image", forwardImageParts imageParts, "")
  else
    (SdkCall.generateContentStream "gemini-3-flash-preview",
     (deliveredChunks stream).map GenEvent.chunk, concatStr (deliveredChunks stream))

/-- A message carrying one attachment, as sent from a conversation with an
image. -/
def imgDemoMessage : Message :=
  { id := 0, role := Role.user, content := "look at this", timestamp := 0,
    attachments := [{ mimeType := "image/png", data := "AAAA" }] }

/-- Counterexample to C6 as stated: in the image branch a response part whose
`text` is the empty string is a text part, yet the JS truthiness guard
`if (part.text)` skips it, so no chunk callback at all is invoked for it. -/
theorem image_branch_drops_empty_text_part :
    hasImages [imgDemoMessage] = true
    ∧ (∃ p ∈ [({ text := some "" } : RespPart)], p.text = some "")
    ∧ (generateStreamingResponseModel [imgDemoMessage] [{ text := some "" }] []).2.1 = [] := by
  decide

/-- C6 (amended): if some message in the conversation has at least one
attachment, the client makes a single non-streaming `generateContent` call
with the image model `gemini-2.5-flash-image`, forwarding every part with
non-empty text to the chunk callback and every inline-data part to the image
callback; if no message has attachments it calls the streaming API with the
text model `gemini-3-flash-preview`.  The image callback passed by `App`
stores the payload as the placeholder model message's `generatedImage`. -/
theorem sdk_path_selection (messages : List Message) (imageParts : List RespPart)
    (stream : List (Option String)) :
    (hasImages messages = true →
      (generateStreamingResponseModel messages imageParts stream).1
          = SdkCall.generateContent "gemini-2.5-flash-image"
      ∧ (∀ p ∈ imageParts, ∀ t, p.text = some t → t ≠ "" →
          GenEvent.chunk t ∈ (generateStreamingResponseModel messages imageParts stream).2.1)
      ∧ (∀ p ∈ imageParts, ∀ g, p.inlineData = some g →
          GenEvent.image g.data g.mimeType
            ∈ (generateStreamingResponseModel messages imageParts stream).2.1))
    ∧ (hasImages messages = false →
      (generateStreamingResponseModel messages imageParts stream).1
          = SdkCall.generateContentStream "gemini-3-flash-preview")
    ∧ (∀ (l : List ChatSession) (sid uid mid : Nat) (text : String)
        (atts : List Attachment) (now : Nat) (t0 : String) (content : String)
        (streaming : Bool) (d mt : String),
        (∀ s ∈ l, ∀ m ∈ s.messages, m.id ≠ mid) → uid ≠ mid →
        applyImageUpdate
            (expectedAfterSend l sid uid text atts now t0 (phMsg mid now content streaming none))
            sid mid d mt
          = expectedAfterSend l sid uid text atts now t0
              (phMsg mid now content streaming (some ⟨d, mt⟩))) := by
  refine ⟨?_, ?_, ?_⟩
  · intro h
    refine ⟨by simp [generateStreamingResponseModel, h], ?_, ?_⟩
    · intro p hp t ht htne
      simp only [generateStreamingResponseModel, h, if_true]
      induction imageParts with
      | nil => exact absurd hp (List.not_mem_nil p)
      | cons q qs ih =>
          simp only [forwardImageParts, List.mem_append]
          rcases List.mem_cons.mp hp with rfl | hp'
          · left
            left
            rw [ht]
            simp [htne]
          · right
            exact ih hp'
    · intro p hp g hg
      simp only [generateStreamingResponseModel, h, if_true]
      induction imageParts with
      | nil => exact absurd hp (List.not_mem_nil p)
      | cons q qs ih =>
          simp only [forwardImageParts, List.mem_append]
          rcases List.mem_cons.mp hp with rfl | hp'
          · left
            right
            rw [hg]
            simp
          · right
            exact ih hp'
  · intro h
    simp [generateStreamingResponseModel, h]
  · intro l sid uid mid text atts now t0 content streaming d mt hfresh huid
    exact update_expectedAfterSend l sid uid mid text atts now t0
      (phMsg mid now content streaming none)
      (fun m => { m with generatedImage := some ⟨d, mt⟩ }) hfresh huid rfl

/-- Witness for C6 (amended): a conversation with an attachment selects the
single `generateContent` call with the image model. -/
theorem sdk_path_selection_witness :
    (generateStreamingResponseModel [imgDemoMessage] [] []).1
      = SdkCall.generateContent "gemini-2.5-flash-image" :=
  ((sdk_path_selection [imgDemoMessage] [] []).1 (by decide)).1

/-! ### C7: the input component (`src/components/ChatInput.tsx`) -/

/-- A browser `File` as the input component observes it: its MIME `type` and
the base64 body that `FileReader.readAsDataURL` produces for its bytes. -/
structure BrowserFile where
  type : String
  base64Content : String
deriving DecidableEq

/-- The data URL produced by `FileReader.readAsDataURL` for a file. -/
def dataURLOf (f : BrowserFile) : String :=
  "data:" ++ f.type ++ ";base64," ++ f.base64Content

/-- JavaScript `String.prototype.split(',')` on the character list. -/
def splitCommaChars : List Char → List (List Char)
  | [] => [[]]
  | c :: cs =>
      if c = ',' then [] :: splitCommaChars cs
      else match splitCommaChars cs with
        | [] => [[c]]
        | g :: gs => (c :: g) :: gs

/-- JavaScript `s.split(',')`. -/
def jsSplitComma (s : String) : List String :=
  (splitCommaChars s.data).map String.mk

/-- `handleFileChange` (`src/components/ChatInput.tsx` lines 45-72): read each
selected file as a data URL, take `split(',')[1]` as the base64 payload, and
append the new attachments in selection order after the existing ones.
(An out-of-range `[1]` — impossible for a data URL — is modelled as `""`.) -/
def handleFileChange (attachments : List Attachment) (files : List BrowserFile) :
    List Attachment :=
  attachments ++ files.map fun f =>
    { mimeType := f.type,
      data := (jsSplitComma (dataURLOf f)).getD 1 "",
      url := some (dataURLOf f) }

/-- `handleSend` (`src/components/ChatInput.tsx` lines 28-36): the message is
sent exactly when the trimmed text is non-empty or an attachment exists, and
no request is in flight; on a send, the text and the attachment list are
cleared.  Returns the sent payload (if any) and the new `text` /
`attachments` state. -/
def handleSend (text : String) (attachments : List Attachment) (isLoading : Bool) :
    Option (String × List Attachment) × String × List Attachment :=
  if ((text.trim != "") || (attachments.length > 0 : Bool)) && !isLoading then
    (some (text, attachments), "", [])
  else (none, text, attachments)

theorem splitCommaChars_no_comma (a : List Char) (h : ',' ∉ a) :
    splitCommaChars a = [a] := by
  induction a with
  | nil => rfl
  | cons c cs ih =>
      have hc : ¬c = ',' := fun hc => h (by simp [hc])
      have hcs : ',' ∉ cs := fun hmem => h (List.mem_cons_of_mem c hmem)
      rw [splitCommaChars, if_neg hc, ih hcs]

theorem splitCommaChars_append (a b : List Char) (h : ',' ∉ a) :
    splitCommaChars (a ++ ',' :: b) = a :: splitCommaChars b := by
  induction a with
  | nil =>
      show splitCommaChars (',' :: b) = [] :: splitCommaChars b
      rw [splitCommaChars, if_pos rfl]
  | cons c cs ih =>
      have hc : ¬c = ',' := fun hc => h (by simp [hc])
      have hcs : ',' ∉ cs := fun hmem => h (List.mem_cons_of_mem c hmem)
      show splitCommaChars (c :: (cs ++ ',' :: b)) = (c :: cs) :: splitCommaChars b
      rw [splitCommaChars, if_neg hc, ih hcs]

theorem strMk_data (s : String) : String.mk s.data = s := rfl

/-- The base64 payload extracted from a file's data URL is exactly the file's
base64 content, provided neither the MIME type nor the content contains a
comma (base64 never does). -/
theorem jsSplitComma_dataURL (f : BrowserFile)
    (htype : ',' ∉ f.type.data) (hcontent : ',' ∉ f.base64Content.data) :
    jsSplitComma (dataURLOf f) = ["data:" ++ f.type ++ ";base64", f.base64Content] := by
  have hdata : (dataURLOf f).data
      = (("data:" ++ f.type ++ ";base64").data) ++ ',' :: f.base64Content.data := by
    show ((("data:" ++ f.type) ++ ";base64,") ++ f.base64Content).data = _
    simp only [String.data_append]
    simp [List.append_assoc]
  have hpre : ',' ∉ ("data:" ++ f.type ++ ";base64").data := by
    simp only [String.data_append]
    intro hmem
    rcases List.mem_append.mp hmem with hmem | hmem
    · rcases List.mem_append.mp hmem with hmem | hmem
      · revert hmem
        decide
      · exact htype hmem
    · revert hmem
      decide
  rw [jsSplitComma, hdata, splitCommaChars_append _ _ hpre,
    splitCommaChars_no_comma _ hcontent]
  simp only [List.map_cons, List.map_nil, strMk_data]

/-- C7: every selected file becomes an inline attachment appended in
selection order after the existing ones, with `mimeType` the file's type and
`data` the base64 content of the file (its data URL with the prefix removed);
and a send is triggered exactly when the trimmed text is non-empty or at
least one attachment exists while no request is in flight, after which the
text and attachment list are cleared. -/
theorem input_component_behaviour (attachments : List Attachment) (files : List BrowserFile)
    (text : String) (sendAtts : List Attachment) (isLoading : Bool)
    (hfiles : ∀ f ∈ files, ',' ∉ f.type.data ∧ ',' ∉ f.base64Content.data) :
    handleFileChange attachments files
      = attachments ++ files.map (fun f =>
          { mimeType := f.type, data := f.base64Content, url := some (dataURLOf f) })
    ∧ ((((text.trim != "") || (sendAtts.length > 0 : Bool)) && !isLoading) = true →
        handleSend text sendAtts isLoading = (some (text, sendAtts), "", []))
    ∧ ((((text.trim != "") || (sendAtts.length > 0 : Bool)) && !isLoading) = false →
        handleSend text sendAtts isLoading = (none, text, sendAtts)) := by
  refine ⟨?_, ?_, ?_⟩
  · rw [handleFileChange]
    congr 1
    refine List.map_congr_left ?_
    intro f hf
    obtain ⟨h1, h2⟩ := hfiles f hf
    rw [jsSplitComma_dataURL f h1 h2]
    rfl
  · intro h
    rw [handleSend, if_pos h]
  · intro h
    rw [handleSend, if_neg (by rw [h]; exact Bool.false_ne_true)]

/-- Witness for C7 at a concrete file list and send state. -/
theorem input_component_behaviour_witness :
    handleFileChange [] [⟨"image/png", "QUJD"⟩]
      = [] ++ [⟨"image/png", "QUJD"⟩].map (fun f =>
          { mimeType := f.type, data := f.base64Content, url := some (dataURLOf f) }) :=
  (input_component_behaviour [] [⟨"image/png", "QUJD"⟩] "hello" [] false (by decide)).1

/-! ### C8: the message renderer is a stateless, deterministic mapping
(`src/unnamed/part_000`, component `ChatMessage`) -/

/-- The avatar shown next to a message: the user's profile picture, the
generic user icon, or the model icon (kid-mode variant or not). -/
inductive AvatarView where
  | userPic (src : String)
  | userIcon
  | modelIcon (kid : Bool)
deriving DecidableEq

/-- The view produced by `ChatMessage` for one message, capturing every
data-dependent branch of the JSX: alignment, avatar, attachment image
sources, the generated-image block, the text (with the `'...'` fallback and
the streaming cursor), the play-audio button, and the timestamp label. -/
structure MessageView where
  alignRight : Bool
  avatar : AvatarView
  attachmentSrcs : List String
  generatedImageSrc : Option String
  contentText : String
  streamingCursor : Bool
  playButton : Bool
  timeLabel : String
deriving DecidableEq

/-- The body of `ChatMessage`: a pure function of the message, the profile
picture and the kid-mode flag.  `fmtTime` stands for the environment's
`toLocaleTimeString` formatting of a timestamp. -/
def renderChatMessage (fmtTime : Nat → String) (message : Message)
    (userProfilePic : Option String) (isKidMode : Bool) : MessageView :=
  let isUser := message.role = Role.user
  { alignRight := isUser,
    avatar := if isUser then
        (match userProfilePic with
         | some p => AvatarView.userPic p
         | none => AvatarView.userIcon)
      else AvatarView.modelIcon isKidMode,
    attachmentSrcs := message.attachments.map fun a =>
      "data:" ++ a.mimeType ++ ";base64," ++ a.data,
    generatedImageSrc := message.generatedImage.map fun g =>
      "data:" ++ g.mimeType ++ ";base64," ++ g.data,
    contentText := if message.content ≠ "" then message.content
      else if message.generatedImage.isSome then "" else "...",
    streamingCursor := message.isStreaming,
    playButton := !isUser && !message.isStreaming && (message.content != ""),
    timeLabel := fmtTime message.timestamp }

/-- `ChatMessage` as a step in an arbitrary ambient world: the component has
no hooks and performs no writes, so rendering returns the view and the world
unchanged. -/
def renderChatMessageStep (World : Type) (w : World) (fmtTime : Nat → String)
    (message : Message) (userProfilePic : Option String) (isKidMode : Bool) :
    MessageView × World :=
  (renderChatMessage fmtTime message userProfilePic isKidMode, w)

/-- C8: rendering the same message with the same props twice produces the
same view, regardless of the ambient world state, and rendering does not
modify any state outside its inputs. -/
theorem renderer_deterministic_stateless (World : Type) (w1 w2 : World)
    (fmtTime : Nat → String) (message : Message) (userProfilePic : Option String)
    (isKidMode : Bool) :
    (renderChatMessageStep World w1 fmtTime message userProfilePic isKidMode).1
        = (renderChatMessageStep World w2 fmtTime message userProfilePic isKidMode).1
    ∧ (renderChatMessageStep World w1 fmtTime message userProfilePic isKidMode).2 = w1 :=
  ⟨rfl, rfl⟩

/-! ### C9: the base64 audio helpers are mutually inverse
(`src/App.tsx` lines 11-28)

`encode` builds a binary string with `String.fromCharCode` over the bytes and
applies `btoa`; `decode` applies `atob` and reads the bytes back with
`charCodeAt`.  For byte values (< 256) the `fromCharCode` / `charCodeAt`
layers are mutually-inverse identities on code units, so the pair is exactly
base64 encoding/decoding of the byte sequence, which is what is modelled
here: `btoa` over a list of byte values and `atob` back to byte values. -/

/-- The base64 alphabet used by `btoa` / `atob`. -/
def b64Chars : List Char :=
  "ABCDEFGHIJKLMNOPQRSTUVWXYZabcdefghijklmnopqrstuvwxyz0123456789+/".toList

/-- The alphabet character for a sextet value. -/
def sextetToChar (n : Nat) : Char := b64Chars.getD n '?'

/-- The sextet value of an alphabet character. -/
def charToSextet (c : Char) : Nat := b64Chars.indexOf c

/-- `btoa` on a byte sequence: emit four alphabet characters per group of
three bytes, padding the final partial group with `'='`. -/
def encodeBytes : List Nat → List Char
  | [] => []
  | [b1] => [sextetToChar (b1 / 4), sextetToChar (b1 % 4 * 16), '=', '=']
  | [b1, b2] => [sextetToChar (b1 / 4), sextetToChar (b1 % 4 * 16 + b2 / 16),
      sextetToChar (b2 % 16 * 4), '=']
  | b1 :: b2 :: b3 :: rest =>
      sextetToChar (b1 / 4) :: sextetToChar (b1 % 4 * 16 + b2 / 16) ::
        sextetToChar (b2 % 16 * 4 + b3 / 64) :: sextetToChar (b3 % 64) :: encodeBytes rest

/-- `atob` back to the byte sequence: decode four characters to three bytes,
with `'='` padding cutting the final group short. -/
def decodeChars : List Char → List Nat
  | c1 :: c2 :: c3 :: c4 :: rest =>
      if c3 = '=' then [charToSextet c1 * 4 + charToSextet c2 / 16]
      else if c4 = '=' then
        [charToSextet c1 * 4 + charToSextet c2 / 16,
         charToSextet c2 % 16 * 16 + charToSextet c3 / 4]
      else
        (charToSextet c1 * 4 + charToSextet c2 / 16) ::
          (charToSextet c2 % 16 * 16 + charToSextet c3 / 4) ::
          (charToSextet c3 % 4 * 64 + charToSextet c4) :: decodeChars rest
  | _ => []

/-- The `encode` helper of `src/App.tsx` lines 11-18. -/
def encode (bytes : List Nat) : String := String.mk (encodeBytes bytes)

/-- The `decode` helper of `src/App.tsx` lines 20-28. -/
def decode (s : String) : List Nat := decodeChars s.data

theorem charToSextet_sextetToChar (n : Nat) (h : n < 64) :
    charToSextet (sextetToChar n) = n := by
  have key : ∀ m : Fin 64, charToSextet (sextetToChar m.val) = m.val := by decide
  exact key ⟨n, h⟩

theorem sextetToChar_ne_pad (n : Nat) (h : n < 64) : sextetToChar n ≠ '=' := by
  have key : ∀ m : Fin 64, sextetToChar m.val ≠ '=' := by decide
  exact key ⟨n, h⟩

theorem byteList_rec_aux (P : List Nat → Prop) (h0 : P []) (h1 : ∀ b1, P [b1])
    (h2 : ∀ b1 b2, P [b1, b2])
    (h3 : ∀ b1 b2 b3 rest, P rest → P (b1 :: b2 :: b3 :: rest)) :
    ∀ l : List Nat, P l
  | [] => h0
  | [b1] => h1 b1
  | [b1, b2] => h2 b1 b2
  | b1 :: b2 :: b3 :: rest => h3 b1 b2 b3 rest (byteList_rec_aux P h0 h1 h2 h3 rest)

theorem decodeChars_encodeBytes :
    ∀ b : List Nat, (∀ x ∈ b, x < 256) → decodeChars (encodeBytes b) = b := by
  refine byteList_rec_aux _ ?_ ?_ ?_ ?_
  · intro _
    rfl
  · intro b1 hb
    have h1 : b1 < 256 := hb b1 (by simp)
    rw [encodeBytes, decodeChars, if_pos rfl,
      charToSextet_sextetToChar (b1 / 4) (by omega),
      charToSextet_sextetToChar (b1 % 4 * 16) (by omega)]
    have : b1 / 4 * 4 + b1 % 4 * 16 / 16 = b1 := by omega
    rw [this]
  · intro b1 b2 hb
    have h1 : b1 < 256 := hb b1 (by simp)
    have h2 : b2 < 256 := hb b2 (by simp)
    rw [encodeBytes, decodeChars,
      if_neg (sextetToChar_ne_pad (b2 % 16 * 4) (by omega)), if_pos rfl,
      charToSextet_sextetToChar (b1 / 4) (by omega),
      charToSextet_sextetToChar (b1 % 4 * 16 + b2 / 16) (by omega),
      charToSextet_sextetToChar (b2 % 16 * 4) (by omega)]
    have e1 : b1 / 4 * 4 + (b1 % 4 * 16 + b2 / 16) / 16 = b1 := by omega
    have e2 : (b1 % 4 * 16 + b2 / 16) % 16 * 16 + b2 % 16 * 4 / 4 = b2 := by omega
    rw [e1, e2]
  · intro b1 b2 b3 rest ih hb
    have h1 : b1 < 256 := hb b1 (by simp)
    have h2 : b2 < 256 := hb b2 (by simp)
    have h3 : b3 < 256 := hb b3 (by simp)
    have hrest : ∀ x ∈ rest, x < 256 := fun x hx => hb x (by simp [hx])
    rw [encodeBytes, decodeChars,
      if_neg (sextetToChar_ne_pad (b2 % 16 * 4 + b3 / 64) (by omega)),
      if_neg (sextetToChar_ne_pad (b3 % 64) (by omega)),
      charToSextet_sextetToChar (b1 / 4) (by omega),
      charToSextet_sextetToChar (b1 % 4 * 16 + b2 / 16) (by omega),
      charToSextet_sextetToChar (b2 % 16 * 4 + b3 / 64) (by omega),
      charToSextet_sextetToChar (b3 % 64) (by omega), ih hrest]
    have e1 : b1 / 4 * 4 + (b1 % 4 * 16 + b2 / 16) / 16 = b1 := by omega
    have e2 : (b1 % 4 * 16 + b2 / 16) % 16 * 16 + (b2 % 16 * 4 + b3 / 64) / 4 = b2 := by omega
    have e3 : (b2 % 16 * 4 + b3 / 64) % 4 * 64 + b3 % 64 = b3 := by omega
    rw [e1, e2, e3]

/-- C9: the base64 audio helpers are mutually inverse — for every byte
sequence `b` (values below 256, as `Uint8Array` elements are),
`decode (encode b) = b`. -/
theorem base64_roundtrip (b : List Nat) (hb : ∀ x ∈ b, x < 256) :
    decode (encode b) = b :=
  decodeChars_encodeBytes b hb

/-- Witness for C9 on a concrete byte sequence. -/
theorem base64_roundtrip_witness :
    decode (encode [72, 101, 108, 108, 111, 33]) = [72, 101, 108, 108, 111, 33] :=
  base64_roundtrip [72, 101, 108, 108, 111, 33] (by decide)
